import Mathlib

/-!
Shallow embedding of the measurement-orchestration core of the
waveguide-control repository (`src/measurement/main_measurement.py` and
`src/measurement/pulse_sequence.py`), together with proofs of the spec
claims about it.

Modelling conventions:
* Python `dict[str, _]` values (parameter dict, observable registry, the
  per-observable `data` dict) are ordered association lists with the usual
  dict semantics: assignment updates the existing key in place, otherwise
  appends at the end.
* Python floats are modelled as exact rationals `ℚ`; `int(x)` (truncation
  toward zero) is `pyInt`.  At every concrete input used below the IEEE
  double evaluation and the exact rational evaluation coincide.
* Exceptions are modelled with `Except`: a raised exception is an
  `Except.error`, and code that catches an exception pattern-matches on it.
-/

namespace Waveguide

/-- Ordered association list standing for a Python `dict[str, α]`. -/
abbrev AList (α : Type) := List (String × α)

/-- Membership test, Python `k in d`. -/
def hasKey {α : Type} : AList α → String → Bool
  | [], _ => false
  | p :: ps, k => if p.1 = k then true else hasKey ps k

/-- Lookup with default, Python `d[k]` when the key is known present. -/
def getKeyD {α : Type} : AList α → String → α → α
  | [], _, v₀ => v₀
  | p :: ps, k, v₀ => if p.1 = k then p.2 else getKeyD ps k v₀

/-- Lookup, Python `d[k]` returning `none` on a missing key. -/
def findKey {α : Type} : AList α → String → Option α
  | [], _ => none
  | p :: ps, k => if p.1 = k then some p.2 else findKey ps k

/-- Assignment `d[k] = v`: update the existing entry in place, else append. -/
def setKey {α : Type} : AList α → String → α → AList α
  | [], k, v => [(k, v)]
  | p :: ps, k, v => if p.1 = k then (k, v) :: ps else p :: setKey ps k v

theorem getKeyD_setKey_same {α : Type} (d : AList α) (k : String) (v : α) (v₀ : α) :
    getKeyD (setKey d k v) k v₀ = v := by
  induction d with
  | nil => simp [setKey, getKeyD]
  | cons p ps ih =>
      by_cases h : p.1 = k
      · simp [setKey, h, getKeyD]
      · simp [setKey, h, getKeyD, ih]

theorem getKeyD_setKey_ne {α : Type} (d : AList α) (k j : String) (v : α) (v₀ : α)
    (h : k ≠ j) : getKeyD (setKey d k v) j v₀ = getKeyD d j v₀ := by
  induction d with
  | nil => simp [setKey, getKeyD, h]
  | cons p ps ih =>
      by_cases hp : p.1 = k
      · simp [setKey, hp, getKeyD, h, hp ▸ h]
      · by_cases hj : p.1 = j
        · simp [setKey, hp, getKeyD, hj, Ne.symm h]
        · simp [setKey, hp, getKeyD, hj, ih]

theorem setKey_setKey_same {α : Type} (d : AList α) (k : String) (v w : α) :
    setKey (setKey d k v) k w = setKey d k w := by
  induction d with
  | nil => simp [setKey]
  | cons p ps ih =>
      by_cases h : p.1 = k
      · simp [setKey, h]
      · simp [setKey, h, ih]

/-- Data Type of Observable (`DataType` enum in the source). -/
inductive DataType
  | Number
  | Histogram
  | Image
deriving DecidableEq, Repr

/-- One value held in an observable's `data` dict: `Number` observables
store plain arrays, `Histogram` observables store `{data, index}` records. -/
inductive Entry
  | arr (a : List ℚ)
  | hist (dat : List ℚ) (index : List ℚ)
deriving DecidableEq, Repr

/-- The array content of an entry (what `save_data` serializes). -/
def entryArr : Entry → List ℚ
  | .arr a => a
  | .hist dat _ => dat

/-- One registered observable: the attribute dict built by `add_observable`. -/
structure Observable where
  data_type : DataType
  save : Bool
  plot : Bool
  plot_color : String
  data : AList Entry
deriving DecidableEq, Repr

/-- The observable registry `self.observables`. -/
abbrev Obs := AList Observable

/-- A value passed to `add_data_point`: a number for `Number` observables, a
histogram object (with `getData()` and `getIndex()`) for `Histogram`
observables, a 2D array for `Image` observables. -/
inductive Datum
  | num (v : ℚ)
  | histo (dat : List ℚ) (index : List ℚ)
  | image (rows : List (List ℚ))
deriving DecidableEq, Repr

/-- `Measurement.add_observable`: registers (or re-registers) a named
observable with empty data. -/
def add_observable (observables : Obs) (name : String) (data_type : DataType)
    (save : Bool) (plot : Bool) (plot_color : String) : Obs :=
  setKey observables name ⟨data_type, save, plot, plot_color, []⟩

/-- `Measurement.add_data_point`: route a datum into the observable store at
the position implied by `current_point`.  The leading assert is the
`Except.error` branch on a missing key.  `Number` data goes to slot
`current_point % len0` of the array stored under key `str(current_point / len0)`
(freshly zero-allocated on first use), `Histogram` data is stored whole under
`"pos1_pos2"`.  The source has no branch for `Image` observables, so for them
the store is returned unchanged. -/
def add_data_point (iterators_list : List (String × List ℚ)) (current_point : ℕ)
    (observables : Obs) (observable : String) (d : Datum) : Except String Obs :=
  match findKey observables observable with
  | none => .error ("Observable " ++ observable ++ " does not exist.")
  | some o =>
    let len0 := (iterators_list.headD ("", [])).2.length
    let pos_1 := current_point % len0
    let pos_2 := current_point / len0
    match o.data_type with
    | .Number =>
      match d with
      | .num v =>
        let key := toString pos_2
        let a := if hasKey o.data key then entryArr (getKeyD o.data key (.arr []))
                 else List.replicate len0 0
        .ok (setKey observables observable
              { o with data := setKey o.data key (.arr (a.set pos_1 v)) })
      | _ => .error "TypeError"
    | .Histogram =>
      match d with
      | .histo dat index =>
        let key := toString pos_1 ++ "_" ++ toString pos_2
        .ok (setKey observables observable
              { o with data := setKey o.data key (.hist dat index) })
      | _ => .error "TypeError"
    | .Image => .ok observables

/-!  Pulse sequence model (`src/measurement/pulse_sequence.py`). -/

/-- Python `int(q)`: truncation toward zero. -/
def pyInt (q : ℚ) : ℤ := q.num.tdiv q.den

/-- A pulse of the sequence: `High` and `Low` are the rectangle dataclasses;
`other` stands for any of the remaining pulse classes (`On`, `Off`,
`Trigger`), which the serializers below reject with a `ValueError`. -/
inductive Pulse
  | high (length : ℚ)
  | low (length : ℚ)
  | other (length : ℚ)
deriving DecidableEq, Repr

/-- The `length` attribute of a pulse, in seconds. -/
def Pulse.plen : Pulse → ℚ
  | .high l => l
  | .low l => l
  | .other l => l

/-- `Sequence.__init__`: total length in ns, `sum of int(pulse.length * 1E9)`. -/
def seq_length (sequence : List Pulse) : ℤ :=
  sequence.foldl (fun acc p => acc + pyInt (p.plen * 10 ^ 9)) 0

/-- `Sequence.get_sequence_pulse_streamer`: list of `(duration_ns, level)`
tuples, `ValueError` on an unknown pulse shape. -/
def get_sequence_pulse_streamer : List Pulse → Except String (List (ℤ × ℕ))
  | [] => .ok []
  | p :: ps =>
    match p with
    | .high l => (get_sequence_pulse_streamer ps).map (fun r => (pyInt (l * 10 ^ 9), 1) :: r)
    | .low l => (get_sequence_pulse_streamer ps).map (fun r => (pyInt (l * 10 ^ 9), 0) :: r)
    | .other _ => .error "Unknown Pulse Shape"

/-- Sample block of one pulse at a given integer sample rate:
`np.ones`/`np.zeros` of `int(pulse.length * sample_rate)` samples. -/
def pulse_samples (sample_rate : ℤ) : Pulse → Except String (List ℚ)
  | .high l => .ok (List.replicate (pyInt (l * sample_rate)).toNat 1)
  | .low l => .ok (List.replicate (pyInt (l * sample_rate)).toNat 0)
  | .other _ => .error "Unknown Pulse Shape"

/-- Concatenate the per-pulse sample blocks, propagating the first error. -/
def seq_samples (sample_rate : ℤ) : List Pulse → Except String (List ℚ)
  | [] => .ok []
  | p :: ps =>
    match pulse_samples sample_rate p with
    | .error e => .error e
    | .ok block =>
      match seq_samples sample_rate ps with
      | .error e => .error e
      | .ok rest => .ok (block ++ rest)

/-- `Sequence.get_sequence_list`: flat sample array of (about) `n_samples`
samples; `sample_rate = int(n_samples / self.length * 1E9)`, then the result
is padded with zeros up to `n_samples` (the negative-size `np.zeros` error is
the `Except.error` branch). -/
def get_sequence_list (sequence : List Pulse) (n_samples : ℕ) : Except String (List ℚ) :=
  let sample_rate := pyInt ((n_samples : ℚ) / (seq_length sequence : ℚ) * 10 ^ 9)
  match seq_samples sample_rate sequence with
  | .error e => .error e
  | .ok ret =>
    if ret.length ≤ n_samples then .ok (ret ++ List.replicate (n_samples - ret.length) 0)
    else .error "ValueError: negative dimensions are not allowed"

/-!  Sweep driver (`Measurement.iterate_measurement`).

The mutable attributes of the `Measurement` object touched by the sweep are
collected in `SweepSt`; `trace` is ghost instrumentation recording every
`run_measurement` invocation (argument dict and whether it succeeded).
External inputs are collected in `Ctx`: `clock` is the wall clock read for
`timestamps`, `run` is the user `run_measurement` callback (given the current
point index, the variable dict and the observable store, it either returns
the updated store or raises), and `stopReq` tells whether the GUI stop button
was pressed while point `n` was being processed (the only way `flag_stop` is
raised externally, during `run_measurement`'s event-loop waits or the
`redraw_plots` call). -/

/-- Mutable sweep state of the `Measurement` object. -/
structure SweepSt where
  var_dict : AList ℚ
  observables : Obs
  current_point : ℕ
  flag_stop : Bool
  timestamps : List ℚ
  trace : List (AList ℚ × Bool)
deriving Repr

/-- External inputs of one run. -/
structure Ctx where
  clock : ℕ → ℚ
  run : ℕ → AList ℚ → Obs → Except Unit Obs
  stopReq : ℕ → Bool
  iters : List (String × List ℚ)

/-- Name of the iterator at list index `i` (`iterators_array[i][0]`). -/
def iterName (iters : List (String × List ℚ)) (i : ℕ) : String :=
  (iters.getD i ("", [])).1

/-- Value list of the iterator at list index `i` (`iterators_array[i][1]`). -/
def iterValues (iters : List (String × List ℚ)) (i : ℕ) : List ℚ :=
  (iters.getD i ("", [])).2

/-- The `index == 0` base level of `iterate_measurement`: loop over the
remaining values of iterator 0; before each value poll `flag_stop`; assign
the value under the iterator's name; call `run_measurement`.  On an exception
the error is caught, `flag_stop` is set and the loop returns immediately; on
success the timestamp is recorded, plots are redrawn (where a pending GUI
stop request is absorbed into `flag_stop`) and `current_point` advances. -/
def iterate_point (C : Ctx) (name : String) : List ℚ → SweepSt → SweepSt
  | [], st => st
  | v :: vs, st =>
    if st.flag_stop then st
    else
      let st1 : SweepSt := { st with var_dict := setKey st.var_dict name v }
      match C.run st1.current_point st1.var_dict st1.observables with
      | .error _ =>
        { st1 with flag_stop := true, trace := st1.trace ++ [(st1.var_dict, false)] }
      | .ok obs2 =>
        let st2 : SweepSt :=
          { var_dict := st1.var_dict
            observables := obs2
            current_point := st1.current_point + 1
            flag_stop := st1.flag_stop || C.stopReq st1.current_point
            timestamps := st1.timestamps.set st1.current_point (C.clock st1.current_point)
            trace := st1.trace ++ [(st1.var_dict, true)] }
        iterate_point C name vs st2

/-- An `index > 0` level of `iterate_measurement`: loop over the remaining
values of this level's iterator; before each value poll `flag_stop`; assign
the value under the iterator's name; recurse one level down (`sub`). -/
def iterate_upper (sub : SweepSt → SweepSt) (name : String) : List ℚ → SweepSt → SweepSt
  | [], st => st
  | v :: vs, st =>
    if st.flag_stop then st
    else iterate_upper sub name vs (sub { st with var_dict := setKey st.var_dict name v })

/-- One level of the recursion of `iterate_measurement`, applied to the list
of values still to process at that level. -/
def iterate_level (C : Ctx) : ℕ → List ℚ → SweepSt → SweepSt
  | 0 => iterate_point C (iterName C.iters 0)
  | i + 1 =>
    iterate_upper (fun st => iterate_level C i (iterValues C.iters i) st)
      (iterName C.iters (i + 1))

/-- `Measurement.iterate_measurement(var_dict, iterators_array, index)`:
process the full value list of the iterator at `index`. -/
def iterate_measurement (C : Ctx) (index : ℕ) (st : SweepSt) : SweepSt :=
  iterate_level C index (iterValues C.iters index) st

/-!  Persistence writer (`Measurement.save_data`) and `Measurement.measure`. -/

/-- One dataset value of the persisted record: a string array or a float
array. -/
inductive DVal
  | strs (l : List String)
  | floats (l : List ℚ)
deriving DecidableEq, Repr

/-- The persisted `raw_data.h5` record: datasets of the three top-level
groups, plus the named sub-groups of `Observables` with their datasets. -/
structure H5File where
  metaInfo : List (String × DVal)
  iterGroup : List (String × DVal)
  obsGroups : List (String × List (String × DVal))
deriving DecidableEq, Repr

/-- The file right after `measure()` created the three empty groups. -/
def emptyFile : H5File := ⟨[], [], []⟩

/-- UI-surface and environment strings used by `save_data` (script tab
contents, git metadata, device roster). -/
structure Env where
  directory : String
  script : String
  measurementName : String
  scriptInfo : String
  itersStr : List (String × String)
  comment : String
  devicesInfo : List String

/-- Character-level body of `sanitize`: every `/` becomes `in`. -/
def sanitizeChars : List Char → List Char
  | [] => []
  | c :: cs => if c = '/' then 'i' :: 'n' :: sanitizeChars cs else c :: sanitizeChars cs

/-- Hierarchical-path sanitizing of dataset names, `name.replace('/', 'in')`. -/
def sanitize (s : String) : String := ⟨sanitizeChars s.data⟩

/-- The `Observables` sub-group written for one registered observable:
`Number` and `Histogram` entries become one float dataset each (for
histograms only the `data` half); the writer has no `Image` branch, so an
`Image` group stays empty. -/
def mkObsGroup (p : String × Observable) : String × List (String × DVal) :=
  (sanitize p.1,
    match p.2.data_type with
    | .Number => p.2.data.map (fun q => (q.1, DVal.floats (entryArr q.2)))
    | .Histogram => p.2.data.map (fun q => (q.1, DVal.floats (entryArr q.2)))
    | .Image => [])

/-- `Measurement.save_data`: append the Meta Info datasets (with the
`Abort Flag` marker exactly when `flag_stop` is set), the `Iterators` group
(timestamps plus one value array per iterator) and one sub-group per
observable registered with `save=True` (observables with `save=False` are
skipped). -/
def save_data (env : Env) (params : AList ℚ) (iters : List (String × List ℚ))
    (flag_stop : Bool) (timestamps : List ℚ) (observables : Obs)
    (file : H5File) : H5File :=
  let meta : List (String × DVal) :=
    [("Measurement", DVal.strs
        [ "Folder: " ++ env.directory, "Script: " ++ env.script,
          "Name: " ++ env.measurementName ]),
     ("Script", DVal.strs [env.scriptInfo]),
     ("Iterators", DVal.strs (env.itersStr.map (fun p => p.1 ++ ": " ++ p.2))),
     ("Parameters", DVal.strs (params.map (fun p => p.1 ++ ": " ++ toString p.2))),
     ("Comments", DVal.strs [env.comment]),
     ("Devices", DVal.strs env.devicesInfo)]
    ++ (if flag_stop then [("Abort Flag", DVal.strs ["This Measurement was aborted."])] else [])
  let iterG : List (String × DVal) :=
    ("Timestamps", DVal.floats timestamps)
      :: iters.map (fun p => (sanitize p.1, DVal.floats p.2))
  let obsG : List (String × List (String × DVal)) :=
    (observables.filter (fun p => p.2.save)).map mkObsGroup
  { metaInfo := file.metaInfo ++ meta
    iterGroup := file.iterGroup ++ iterG
    obsGroups := file.obsGroups ++ obsG }

/-- `self.number_points`, computed by the loop
`for iterator in iterators_list: number_points *= len(iterator[1])`. -/
def number_points_of (iters : List (String × List ℚ)) : ℕ :=
  iters.foldl (fun acc p => acc * p.2.length) 1

/-- Result of one `measure()` call: the on-disk record (`none` when the run
aborted before the file was created), the computed `number_points`, the list
of `run_measurement` invocations, and the final sweep state (`none` when the
sweep never started). -/
structure MeasureResult where
  file : Option H5File
  number_points : ℕ
  runCalls : List (AList ℚ × Bool)
  final : Option SweepSt
deriving Repr

/-- `Measurement.measure`: reset per-run state; abort silently on an empty
iterator list; compute `number_points` and allocate `timestamps`; create the
three empty groups of the record; run `setup_measurement` (any exception
aborts the run after the empty groups were created — nothing more is
written); drive the sweep from the last iterator index; always save
afterwards.  `setup` is the user callback: from the parameter dict it either
returns the registered observable store or raises. -/
def measure (C : Ctx) (env : Env) (params : AList ℚ)
    (setup : AList ℚ → Except Unit Obs) : MeasureResult :=
  if C.iters = [] then ⟨none, 1, [], none⟩
  else
    let number_points := number_points_of C.iters
    let timestamps : List ℚ := List.replicate number_points 0
    match setup params with
    | .error _ => ⟨some emptyFile, number_points, [], none⟩
    | .ok obs0 =>
      let st0 : SweepSt := ⟨params, obs0, 0, false, timestamps, []⟩
      let st1 := iterate_measurement C (C.iters.length - 1) st0
      let file1 := save_data env st1.var_dict C.iters st1.flag_stop
        st1.timestamps st1.observables emptyFile
      ⟨some file1, number_points, st1.trace, some st1⟩

/-!  Association-list facts used by several claims. -/

theorem findKey_eq_none {α : Type} (d : AList α) (k : String) :
    hasKey d k = false → findKey d k = none := by
  induction d with
  | nil => intro _; rfl
  | cons p ps ih =>
      intro h
      by_cases hp : p.1 = k
      · simp [hasKey, hp] at h
      · simp [hasKey, hp] at h
        simp [findKey, hp, ih h]

theorem findKey_setKey_same {α : Type} (d : AList α) (k : String) (v : α) :
    findKey (setKey d k v) k = some v := by
  induction d with
  | nil => simp [setKey, findKey]
  | cons p ps ih =>
      by_cases h : p.1 = k
      · simp [setKey, h, findKey]
      · simp [setKey, h, findKey, ih]

theorem findKey_setKey_ne {α : Type} (d : AList α) (k j : String) (v : α)
    (h : k ≠ j) : findKey (setKey d k v) j = findKey d j := by
  induction d with
  | nil => simp [setKey, findKey, h]
  | cons p ps ih =>
      by_cases hp : p.1 = k
      · simp [setKey, hp, findKey, h]
      · by_cases hj : p.1 = j
        · have hjk : ¬j = k := fun hh => hp (hj.trans hh)
          simp [setKey, hp, findKey, hj, hjk]
        · simp [setKey, hp, findKey, hj, ih]

/-!  Claim C10: pulse sequence round trip. -/

theorem pyInt_us_ns : pyInt ((1/1000000 : ℚ) * 10 ^ 9) = 1000 := by
  have h : ((1:ℚ)/1000000 * 10 ^ 9) = 1000 := by norm_num
  rw [pyInt, h]
  norm_num

theorem seq_length_us_us : seq_length [.high (1/1000000), .low (1/1000000)] = 2000 := by
  simp only [seq_length, List.foldl, Pulse.plen, pyInt_us_ns]
  norm_num

/-- C10: for the pulse sequence `[High(length=1e-6), Low(length=1e-6)]`,
`get_sequence_pulse_streamer()` returns exactly `[(1000, 1), (1000, 0)]`
(nanosecond durations, levels 1 then 0), and `get_sequence_list(n_samples=2000)`
returns exactly 1000 ones followed by 1000 zeros: the sample rate derived
from the 2e-6 s total length introduces no rounding error at all here.
Float arithmetic is modelled exactly over `ℚ`; at these inputs the IEEE
double evaluation of the source produces the same integers. -/
theorem claim_C10 :
    get_sequence_pulse_streamer [.high (1/1000000), .low (1/1000000)] =
      .ok [(1000, 1), (1000, 0)] ∧
    get_sequence_list [.high (1/1000000), .low (1/1000000)] 2000 =
      .ok (List.replicate 1000 1 ++ List.replicate 1000 0) := by
  constructor
  · simp only [get_sequence_pulse_streamer, pyInt_us_ns, Except.map]
  · have hsr : pyInt (((2000:ℕ) : ℚ) /
        ((seq_length [.high (1/1000000), .low (1/1000000)] : ℤ) : ℚ) * 10 ^ 9) =
        1000000000 := by
      rw [seq_length_us_us]
      have h : (((2000:ℕ) : ℚ) / ((2000 : ℤ) : ℚ) * 10 ^ 9) = 1000000000 := by
        push_cast
        norm_num
      rw [pyInt, h]
      norm_num
    have hp : pyInt ((1/1000000 : ℚ) * ((1000000000 : ℤ) : ℚ)) = 1000 := by
      have h : ((1:ℚ)/1000000 * ((1000000000 : ℤ) : ℚ)) = 1000 := by
        push_cast
        norm_num
      rw [pyInt, h]
      norm_num
    have hseq : seq_samples 1000000000 [.high (1/1000000), .low (1/1000000)] =
        .ok (List.replicate 1000 1 ++ List.replicate 1000 0) := by
      simp only [seq_samples, pulse_samples, hp, List.append_nil]
      rfl
    simp only [get_sequence_list]
    rw [hsr, hseq]
    simp only [List.length_append, List.length_replicate]
    norm_num

/-!  Claim C7: unregistered observable. -/

/-- C7: calling `add_data_point` with a name that was never registered via
`add_observable` fails with the assertion error before anything is touched:
the call returns the assertion `Except.error` (the raised `AssertionError`),
so no observable store is mutated. -/
theorem claim_C7 (iterators_list : List (String × List ℚ)) (current_point : ℕ)
    (observables : Obs) (observable : String) (d : Datum)
    (h : hasKey observables observable = false) :
    add_data_point iterators_list current_point observables observable d =
      .error ("Observable " ++ observable ++ " does not exist.") := by
  rw [add_data_point, findKey_eq_none observables observable h]

/-- Example observable registry with a single `Number` observable `X`. -/
def exObs : Obs := add_observable [] "X" .Number true true "green"

/-- Example iterator list of the spec: `A` with 2 values, `B` with 3. -/
def exIters : List (String × List ℚ) := [("A", [10, 11]), ("B", [20, 21, 22])]

/-- Witness for C7 at a concrete unregistered name. -/
theorem claim_C7_witness :
    hasKey exObs "unregistered" = false ∧
    add_data_point exIters 0 exObs "unregistered" (.num 1) =
      .error ("Observable " ++ "unregistered" ++ " does not exist.") :=
  ⟨by decide, claim_C7 exIters 0 exObs "unregistered" (.num 1) (by decide)⟩

/-!  Claim C9: `add_data_point` on an `Image`-type observable.  The source
has no `Image` branch in `add_data_point` (only `Number` and `Histogram`),
so the supplied 2D array is dropped and no snapshot is ever stored, although
the spec (and the image branch of `redraw_plots`, which reads
`observable_dict["data"]` as the image array) expect the snapshot to be kept. -/

/-- Example registry with an `Image` observable registered alongside `X`. -/
def exObsImage : Obs := add_observable exObs "img" .Image true true "green"

/-- C9: evaluated at the failing input, `add_data_point` on the registered
`Image` observable `img` returns the store UNCHANGED — the 2D array
`[[1, 2], [3, 4]]` is not stored as a snapshot (the data dict of `img` stays
empty), contradicting the claimed overwrite-wholesale semantics. -/
theorem claim_C9 :
    add_data_point exIters 0 exObsImage "img" (.image [[1, 2], [3, 4]]) =
      .ok exObsImage ∧
    findKey exObsImage "img" =
      some ⟨.Image, true, true, "green", []⟩ := by
  constructor
  · rfl
  · rfl

/-!  Claim C5: a failing `setup_measurement` short-circuits `measure()`. -/

/-- C5: if the user `setup_measurement` callback raises, `measure()` returns
right after reporting: `run_measurement` is never invoked (`runCalls = []`,
no sweep state), `save_data` never runs, and the on-disk record is exactly
the three freshly created empty groups with zero datasets (`emptyFile`). -/
theorem claim_C5 (C : Ctx) (env : Env) (params : AList ℚ)
    (setup : AList ℚ → Except Unit Obs)
    (hne : C.iters ≠ []) (hsetup : setup params = .error ()) :
    measure C env params setup =
      ⟨some emptyFile, number_points_of C.iters, [], none⟩ ∧
    emptyFile.metaInfo = [] ∧ emptyFile.iterGroup = [] ∧ emptyFile.obsGroups = [] := by
  refine ⟨?_, rfl, rfl, rfl⟩
  rw [measure, if_neg hne, hsetup]

/-- Example context: the iterators of the spec example, a clock reading
`100 + n` at point `n`, an always-succeeding `run_measurement` that leaves
the observable store unchanged, and no stop requests. -/
def exCtx : Ctx := ⟨fun n => (n : ℚ) + 100, fun _ _ o => .ok o, fun _ => false, exIters⟩

/-- Example environment strings for the persistence writer. -/
def exEnv : Env := ⟨"dir", "script.py", "Example", "info", [("A", "0:1:1"), ("B", "0:1:2")],
  "comment", ["dev: Device at addr"]⟩

/-- Witness for C5: a concrete failing setup aborts a concrete run. -/
theorem claim_C5_witness :
    exCtx.iters ≠ [] ∧
    (fun _ : AList ℚ => (Except.error () : Except Unit Obs)) [] = .error () ∧
    (measure exCtx exEnv [] (fun _ => .error ()) =
      ⟨some emptyFile, number_points_of exCtx.iters, [], none⟩ ∧
     emptyFile.metaInfo = [] ∧ emptyFile.iterGroup = [] ∧ emptyFile.obsGroups = []) :=
  ⟨by decide, rfl, claim_C5 exCtx exEnv [] (fun _ => .error ()) (by decide) rfl⟩

/-!  Claim C8: only `save=True` observables are persisted. -/

/-- C8: the `Observables` section written by `save_data` is exactly one group
per observable registered with `save = true`, in registration order; every
persisted group stems from a `save = true` registration, so an observable
registered with `save = false` contributes no group and no datasets no matter
how much data it holds, and (absent a sanitized-name collision with a saved
observable) its name does not appear among the persisted group names. -/
theorem claim_C8 (env : Env) (params : AList ℚ) (iters : List (String × List ℚ))
    (flag_stop : Bool) (timestamps : List ℚ) (observables : Obs)
    (nm : String) (o : Observable)
    (hmem : (nm, o) ∈ observables) (hsave : o.save = false)
    (hcol : ∀ q ∈ observables, q.2.save = true → sanitize q.1 ≠ sanitize nm) :
    (save_data env params iters flag_stop timestamps observables emptyFile).obsGroups =
      (observables.filter (fun p => p.2.save)).map mkObsGroup ∧
    (∀ g ∈ (save_data env params iters flag_stop timestamps observables
        emptyFile).obsGroups, ∃ q, q ∈ observables ∧ q.2.save = true ∧ g = mkObsGroup q) ∧
    sanitize nm ∉ (save_data env params iters flag_stop timestamps observables
      emptyFile).obsGroups.map Prod.fst := by
  have hgroups : (save_data env params iters flag_stop timestamps observables
      emptyFile).obsGroups = (observables.filter (fun p => p.2.save)).map mkObsGroup := by
    simp [save_data, emptyFile]
  refine ⟨hgroups, ?_, ?_⟩
  · intro g hg
    rw [hgroups] at hg
    obtain ⟨q, hq, rfl⟩ := List.mem_map.mp hg
    obtain ⟨hqmem, hqsave⟩ := List.mem_filter.mp hq
    exact ⟨q, hqmem, by simpa using hqsave, rfl⟩
  · intro hin
    rw [hgroups] at hin
    obtain ⟨g, hg, hfst⟩ := List.mem_map.mp hin
    obtain ⟨q, hq, rfl⟩ := List.mem_map.mp hg
    obtain ⟨hqmem, hqsave⟩ := List.mem_filter.mp hq
    exact hcol q hqmem (by simpa using hqsave) hfst

/-- Concrete registry for the C8 witness: a data-laden scratch observable
with `save = false` next to a saved one. -/
def exObsC8 : Obs :=
  [("scratch", ⟨.Number, false, true, "green", [("0", .arr [1, 2])]⟩),
   ("Y", ⟨.Number, true, true, "red", [("0", .arr [3, 4])]⟩)]

/-- Witness for C8 at the concrete registry `exObsC8`. -/
theorem claim_C8_witness :
    (("scratch", (⟨.Number, false, true, "green", [("0", .arr [1, 2])]⟩ : Observable))
        ∈ exObsC8 ∧
      (⟨.Number, false, true, "green", [("0", .arr [1, 2])]⟩ : Observable).save = false ∧
      (∀ q ∈ exObsC8, q.2.save = true → sanitize q.1 ≠ sanitize "scratch")) ∧
    ((save_data exEnv [] exIters false [] exObsC8 emptyFile).obsGroups =
      (exObsC8.filter (fun p => p.2.save)).map mkObsGroup ∧
    (∀ g ∈ (save_data exEnv [] exIters false [] exObsC8
        emptyFile).obsGroups, ∃ q, q ∈ exObsC8 ∧ q.2.save = true ∧ g = mkObsGroup q) ∧
    sanitize "scratch" ∉ (save_data exEnv [] exIters false [] exObsC8
      emptyFile).obsGroups.map Prod.fst) :=
  ⟨⟨by decide, by decide, by decide⟩,
    claim_C8 exEnv [] exIters false [] exObsC8 "scratch"
      ⟨.Number, false, true, "green", [("0", .arr [1, 2])]⟩
      (by decide) (by decide) (by decide)⟩

/-!  Cooperative cancellation: `flag_stop` facts. -/

theorem iterate_point_flag (C : Ctx) (name : String) (values : List ℚ) (st : SweepSt)
    (h : st.flag_stop = true) : iterate_point C name values st = st := by
  cases values with
  | nil => rfl
  | cons v vs => simp [iterate_point, h]

theorem iterate_upper_flag (sub : SweepSt → SweepSt) (name : String) (values : List ℚ)
    (st : SweepSt) (h : st.flag_stop = true) : iterate_upper sub name values st = st := by
  cases values with
  | nil => rfl
  | cons v vs => simp [iterate_upper, h]

theorem iterate_level_flag (C : Ctx) (index : ℕ) (values : List ℚ) (st : SweepSt)
    (h : st.flag_stop = true) : iterate_level C index values st = st := by
  cases index with
  | zero => exact iterate_point_flag C (iterName C.iters 0) values st h
  | succ i =>
      exact iterate_upper_flag (fun s => iterate_level C i (iterValues C.iters i) s)
        (iterName C.iters (i + 1)) values st h

theorem iterate_measurement_flag (C : Ctx) (index : ℕ) (st : SweepSt)
    (h : st.flag_stop = true) : iterate_measurement C index st = st :=
  iterate_level_flag C index (iterValues C.iters index) st h

/-- One-step unfolding of the base level on a failing `run_measurement`. -/
theorem iterate_point_cons_err (C : Ctx) (name : String) (v : ℚ) (vs : List ℚ)
    (st : SweepSt) (e : Unit) (hf : st.flag_stop = false)
    (hrun : C.run st.current_point (setKey st.var_dict name v) st.observables = .error e) :
    iterate_point C name (v :: vs) st =
      ⟨setKey st.var_dict name v, st.observables, st.current_point, true,
        st.timestamps, st.trace ++ [(setKey st.var_dict name v, false)]⟩ := by
  simp [iterate_point, hf, hrun]

/-- One-step unfolding of the base level on a successful `run_measurement`. -/
theorem iterate_point_cons_ok (C : Ctx) (name : String) (v : ℚ) (vs : List ℚ)
    (st : SweepSt) (obs2 : Obs) (hf : st.flag_stop = false)
    (hrun : C.run st.current_point (setKey st.var_dict name v) st.observables = .ok obs2) :
    iterate_point C name (v :: vs) st =
      iterate_point C name vs
        ⟨setKey st.var_dict name v, obs2, st.current_point + 1,
          C.stopReq st.current_point,
          st.timestamps.set st.current_point (C.clock st.current_point),
          st.trace ++ [(setKey st.var_dict name v, true)]⟩ := by
  simp [iterate_point, hf, hrun]

/-- One-step unfolding of an upper level when the flag is down. -/
theorem iterate_upper_cons (sub : SweepSt → SweepSt) (name : String) (v : ℚ)
    (vs : List ℚ) (st : SweepSt) (hf : st.flag_stop = false) :
    iterate_upper sub name (v :: vs) st =
      iterate_upper sub name vs (sub { st with var_dict := setKey st.var_dict name v }) := by
  simp [iterate_upper, hf]

/-- A stop request arriving while point `k` is processed caps the sweep: the
base level issues at most the in-flight point `k` and then halts. -/
theorem iterate_point_stop_bound (C : Ctx) (name : String) (k : ℕ)
    (hk : C.stopReq k = true) (values : List ℚ) :
    ∀ st : SweepSt, st.flag_stop = false → st.current_point ≤ k →
      (iterate_point C name values st).current_point ≤ k + 1 ∧
      ((iterate_point C name values st).flag_stop = false →
        (iterate_point C name values st).current_point ≤ k) := by
  induction values with
  | nil => intro st _ hcp; exact ⟨Nat.le_succ_of_le hcp, fun _ => hcp⟩
  | cons v vs ih =>
      intro st hf hcp
      cases hrun : C.run st.current_point (setKey st.var_dict name v) st.observables with
      | error e =>
          rw [iterate_point_cons_err C name v vs st e hf hrun]
          exact ⟨Nat.le_succ_of_le hcp, fun hcontra => by simp at hcontra⟩
      | ok obs2 =>
          rw [iterate_point_cons_ok C name v vs st obs2 hf hrun]
          by_cases hck : st.current_point = k
          · subst hck
            rw [iterate_point_flag C name vs _ (by simp [hk])]
            exact ⟨Nat.le_refl _, fun hcontra => by simp [hk] at hcontra⟩
          · have hlt : st.current_point < k := Nat.lt_of_le_of_ne hcp hck
            cases hsr : C.stopReq st.current_point with
            | true =>
                rw [iterate_point_flag C name vs _ (by simp [hsr])]
                exact ⟨Nat.le_succ_of_le hlt,
                  fun hcontra => by simp [hsr] at hcontra⟩
            | false => exact ih _ (by simp [hsr]) hlt

/-- Stop-request cap for an upper recursion level, given the cap for the
level below it. -/
theorem iterate_upper_stop_bound (sub : SweepSt → SweepSt) (name : String) (k : ℕ)
    (hsub : ∀ st, st.flag_stop = false → st.current_point ≤ k →
      (sub st).current_point ≤ k + 1 ∧
      ((sub st).flag_stop = false → (sub st).current_point ≤ k))
    (values : List ℚ) :
    ∀ st : SweepSt, st.flag_stop = false → st.current_point ≤ k →
      (iterate_upper sub name values st).current_point ≤ k + 1 ∧
      ((iterate_upper sub name values st).flag_stop = false →
        (iterate_upper sub name values st).current_point ≤ k) := by
  induction values with
  | nil => intro st _ hcp; exact ⟨Nat.le_succ_of_le hcp, fun _ => hcp⟩
  | cons v vs ih =>
      intro st hf hcp
      rw [iterate_upper_cons sub name v vs st hf]
      set st1 : SweepSt := { st with var_dict := setKey st.var_dict name v } with hst1
      have hst1f : st1.flag_stop = false := hf
      have hst1cp : st1.current_point ≤ k := hcp
      obtain ⟨hb1, hb2⟩ := hsub st1 hst1f hst1cp
      cases hrf : (sub st1).flag_stop with
      | true =>
          rw [iterate_upper_flag sub name vs _ hrf]
          exact ⟨hb1, fun hcontra => by rw [hrf] at hcontra; cases hcontra⟩
      | false => exact ih (sub st1) hrf (hb2 hrf)

/-- Stop-request cap for every recursion level of the sweep. -/
theorem iterate_level_stop_bound (C : Ctx) (k : ℕ) (hk : C.stopReq k = true)
    (index : ℕ) (values : List ℚ) :
    ∀ st : SweepSt, st.flag_stop = false → st.current_point ≤ k →
      (iterate_level C index values st).current_point ≤ k + 1 ∧
      ((iterate_level C index values st).flag_stop = false →
        (iterate_level C index values st).current_point ≤ k) := by
  induction index generalizing values with
  | zero => exact iterate_point_stop_bound C (iterName C.iters 0) k hk values
  | succ i ih =>
      exact iterate_upper_stop_bound _ (iterName C.iters (i + 1)) k
        (fun st hf hcp => ih (iterValues C.iters i) st hf hcp) values

/-- C4: once `flag_stop` is `true`, every recursion level of
`iterate_measurement` returns immediately without touching the state, so no
further `run_measurement` invocation ever occurs; and if the stop flag is
raised while point `k` is in flight (a stop request registered during point
`k`), the sweep completes at most that one in-flight point:
`current_point` never exceeds `k + 1`. -/
theorem claim_C4 (C : Ctx) (index : ℕ) (k : ℕ) :
    (∀ st : SweepSt, st.flag_stop = true → iterate_measurement C index st = st) ∧
    (C.stopReq k = true → ∀ st : SweepSt, st.flag_stop = false →
      st.current_point ≤ k → (iterate_measurement C index st).current_point ≤ k + 1) :=
  ⟨fun st h => iterate_measurement_flag C index st h,
   fun hk st hf hcp =>
     (iterate_level_stop_bound C k hk index (iterValues C.iters index) st hf hcp).1⟩

/-- Context for the C4 witness: stop requested while point 1 is processed. -/
def exCtxStop : Ctx :=
  ⟨fun n => (n : ℚ) + 100, fun _ _ o => .ok o, fun n => n = 1, exIters⟩

/-- Sweep state with the stop flag already raised, for the C4 witness. -/
def exStFlagged : SweepSt := ⟨[("p", 5)], exObs, 2, true, List.replicate 6 0, []⟩

/-- Fresh sweep state at the start of a sweep, for the C4 witness. -/
def exSt0 : SweepSt := ⟨[("p", 5)], exObs, 0, false, List.replicate 6 0, []⟩

/-- Witness for C4: with the flag already set the sweep is a no-op, and with
a stop request during point 1 the sweep stops by `current_point = 2`. -/
theorem claim_C4_witness :
    iterate_measurement exCtxStop 1 exStFlagged = exStFlagged ∧
    (iterate_measurement exCtxStop 1 exSt0).current_point ≤ 2 :=
  ⟨(claim_C4 exCtxStop 1 1).1 exStFlagged rfl,
   (claim_C4 exCtxStop 1 1).2 (by decide) exSt0 rfl (by decide)⟩

/-!  Point counting: `number_points` and the growth of `current_point`. -/

/-- Number of points of one full sweep of the levels strictly below `i`,
`∏ len(iterators[j]) for j < i`. -/
def subSize (iters : List (String × List ℚ)) : ℕ → ℕ
  | 0 => 1
  | i + 1 => subSize iters i * (iterValues iters i).length

theorem foldl_mul_len (l : List (String × List ℚ)) :
    ∀ a : ℕ, l.foldl (fun acc p => acc * p.2.length) a =
      a * (l.map (fun p => p.2.length)).prod := by
  induction l with
  | nil => intro a; simp
  | cons p ps ih => intro a; simp [List.foldl_cons, ih, mul_assoc]

theorem number_points_of_eq_prod (iters : List (String × List ℚ)) :
    number_points_of iters = (iters.map (fun p => p.2.length)).prod := by
  rw [number_points_of, foldl_mul_len, one_mul]

theorem subSize_eq_prod_take (iters : List (String × List ℚ)) :
    ∀ i, i ≤ iters.length →
      subSize iters i = ((iters.take i).map (fun p => p.2.length)).prod := by
  intro i
  induction i with
  | zero => intro _; simp [subSize]
  | succ j ih =>
      intro hle
      have hj : j < iters.length := Nat.lt_of_succ_le hle
      have hmap : j < (List.map (fun p => p.2.length) iters).length := by simpa using hj
      have hv : iterValues iters j = iters[j].2 := by
        rw [iterValues, List.getD_eq_getElem?_getD, List.getElem?_eq_getElem hj]
        rfl
      rw [subSize, ih (Nat.le_of_lt hj), hv]
      simp only [List.map_take]
      rw [List.take_succ, List.getElem?_eq_getElem hmap]
      simp

theorem subSize_full (iters : List (String × List ℚ)) :
    subSize iters iters.length = number_points_of iters := by
  rw [subSize_eq_prod_take iters iters.length (Nat.le_refl _), List.take_length,
    number_points_of_eq_prod]

theorem subSize_last (iters : List (String × List ℚ)) (hne : iters ≠ []) :
    subSize iters (iters.length - 1) * (iterValues iters (iters.length - 1)).length =
      number_points_of iters := by
  have hlen : iters.length - 1 + 1 = iters.length :=
    Nat.succ_pred_eq_of_pos (List.length_pos.mpr hne)
  have h := subSize_full iters
  rw [← hlen] at h
  rw [← h, subSize]

/-- Trace growth and `current_point` accounting at the base level: the trace
is extended by at most one entry per remaining value, and `current_point`
advances by exactly the number of successful `run_measurement` calls. -/
theorem iterate_point_cp (C : Ctx) (name : String) (values : List ℚ) :
    ∀ st : SweepSt, ∃ L,
      (iterate_point C name values st).trace = st.trace ++ L ∧
      L.length ≤ values.length ∧
      (iterate_point C name values st).current_point =
        st.current_point + L.countP (fun e => e.2) := by
  induction values with
  | nil => intro st; exact ⟨[], by simp [iterate_point], by simp, by simp [iterate_point]⟩
  | cons v vs ih =>
      intro st
      cases hf : st.flag_stop with
      | true =>
          rw [iterate_point_flag C name (v :: vs) st hf]
          exact ⟨[], by simp, by simp, by simp⟩
      | false =>
          cases hrun : C.run st.current_point (setKey st.var_dict name v) st.observables with
          | error e =>
              rw [iterate_point_cons_err C name v vs st e hf hrun]
              refine ⟨[(setKey st.var_dict name v, false)], rfl, by simp, ?_⟩
              simp [List.countP_cons]
          | ok obs2 =>
              rw [iterate_point_cons_ok C name v vs st obs2 hf hrun]
              obtain ⟨L, htr, hlen, hcp⟩ := ih _
              refine ⟨(setKey st.var_dict name v, true) :: L, ?_, ?_, ?_⟩
              · rw [htr]; simp
              · simp; omega
              · rw [hcp]; simp [List.countP_cons]; omega

/-- Trace growth and `current_point` accounting at an upper level, given the
accounting of the level below (`s` bounds the calls of one sub-sweep). -/
theorem iterate_upper_cp (sub : SweepSt → SweepSt) (name : String) (s : ℕ)
    (hsub : ∀ st : SweepSt, ∃ L,
      (sub st).trace = st.trace ++ L ∧ L.length ≤ s ∧
      (sub st).current_point = st.current_point + L.countP (fun e => e.2))
    (values : List ℚ) :
    ∀ st : SweepSt, ∃ L,
      (iterate_upper sub name values st).trace = st.trace ++ L ∧
      L.length ≤ values.length * s ∧
      (iterate_upper sub name values st).current_point =
        st.current_point + L.countP (fun e => e.2) := by
  induction values with
  | nil => intro st; exact ⟨[], by simp [iterate_upper], by simp, by simp [iterate_upper]⟩
  | cons v vs ih =>
      intro st
      cases hf : st.flag_stop with
      | true =>
          rw [iterate_upper_flag sub name (v :: vs) st hf]
          exact ⟨[], by simp, by simp, by simp⟩
      | false =>
          rw [iterate_upper_cons sub name v vs st hf]
          obtain ⟨L1, htr1, hlen1, hcp1⟩ :=
            hsub { st with var_dict := setKey st.var_dict name v }
          obtain ⟨L2, htr2, hlen2, hcp2⟩ := ih (sub { st with var_dict := setKey st.var_dict name v })
          refine ⟨L1 ++ L2, ?_, ?_, ?_⟩
          · rw [htr2, htr1]; simp
          · calc (L1 ++ L2).length = L1.length + L2.length := by simp
              _ ≤ s + vs.length * s := Nat.add_le_add hlen1 hlen2
              _ = (vs.length + 1) * s := by ring
          · rw [hcp2, hcp1, List.countP_append]
            dsimp only
            omega

/-- Trace growth and `current_point` accounting for a whole recursion level. -/
theorem iterate_level_cp (C : Ctx) (index : ℕ) (values : List ℚ) :
    ∀ st : SweepSt, ∃ L,
      (iterate_level C index values st).trace = st.trace ++ L ∧
      L.length ≤ values.length * subSize C.iters index ∧
      (iterate_level C index values st).current_point =
        st.current_point + L.countP (fun e => e.2) := by
  induction index generalizing values with
  | zero =>
      intro st
      obtain ⟨L, htr, hlen, hcp⟩ := iterate_point_cp C (iterName C.iters 0) values st
      exact ⟨L, htr, by simpa [subSize] using hlen, hcp⟩
  | succ i ih =>
      intro st
      refine iterate_upper_cp _ (iterName C.iters (i + 1)) (subSize C.iters (i + 1)) ?_ values st
      intro st2
      obtain ⟨L, htr, hlen, hcp⟩ := ih (iterValues C.iters i) st2
      refine ⟨L, htr, ?_, hcp⟩
      calc L.length ≤ (iterValues C.iters i).length * subSize C.iters i := hlen
        _ = subSize C.iters (i + 1) := by rw [subSize, Nat.mul_comm]

/-- C6 (amended): `number_points` always equals the product of all iterator
value-list lengths; `current_point` starts at 0, equals the number of
successful `run_measurement` calls throughout (so it advances by exactly 1
after each successful call and is never decreased), and stays in the CLOSED
range `[0, number_points]` — it reaches `number_points` itself exactly when
the sweep completes in full, which refutes the half-open range of the
original claim. -/
theorem claim_C6 (C : Ctx) (env : Env) (params : AList ℚ)
    (setup : AList ℚ → Except Unit Obs) (hne : C.iters ≠ []) :
    (measure C env params setup).number_points =
      (C.iters.map (fun p => p.2.length)).prod ∧
    (∀ st1 : SweepSt, (measure C env params setup).final = some st1 →
      st1.current_point = st1.trace.countP (fun e => e.2) ∧
      st1.current_point ≤ (measure C env params setup).number_points) ∧
    (∀ (index : ℕ) (values : List ℚ) (st : SweepSt),
      st.current_point ≤ (iterate_level C index values st).current_point) := by
  have hnp : (measure C env params setup).number_points = number_points_of C.iters := by
    rw [measure, if_neg hne]
    cases setup params <;> rfl
  refine ⟨by rw [hnp, number_points_of_eq_prod], ?_, ?_⟩
  · intro st1 hfin
    rw [measure, if_neg hne] at hfin
    cases hsetup : setup params with
    | error e => rw [hsetup] at hfin; cases hfin
    | ok obs0 =>
        rw [hsetup] at hfin
        simp only [Option.some.injEq] at hfin
        obtain ⟨L, htr, hlen, hcp⟩ :=
          iterate_level_cp C (C.iters.length - 1) (iterValues C.iters (C.iters.length - 1))
            ⟨params, obs0, 0, false, List.replicate (number_points_of C.iters) 0, []⟩
        rw [iterate_measurement] at hfin
        rw [hfin] at htr hcp
        constructor
        · rw [hcp, htr]
          simp
        · rw [hnp, hcp]
          dsimp only
          rw [Nat.zero_add]
          calc L.countP (fun e => e.2) ≤ L.length := List.countP_le_length _
            _ ≤ (iterValues C.iters (C.iters.length - 1)).length *
                  subSize C.iters (C.iters.length - 1) := hlen
            _ = number_points_of C.iters := by rw [Nat.mul_comm]; exact subSize_last C.iters hne
  · intro index values st
    obtain ⟨L, _, _, hcp⟩ := iterate_level_cp C index values st
    rw [hcp]
    exact Nat.le_add_right _ _

/-- Single-iterator, single-value context for the C6 counterexample. -/
def exCtxOne : Ctx := ⟨fun _ => 0, fun _ _ o => .ok o, fun _ => false, [("A", [1])]⟩

/-- Counterexample to C6 as stated: after the fully completed one-point sweep
the final `current_point` EQUALS `number_points` (both are 1), so it does not
stay in the half-open range `[0, number_points)`. -/
theorem claim_C6_counterexample :
    (measure exCtxOne exEnv [] (fun _ => .ok exObs)).number_points = 1 ∧
    (measure exCtxOne exEnv [] (fun _ => .ok exObs)).final.map SweepSt.current_point =
      some 1 ∧
    ¬(1 : ℕ) < 1 := by
  refine ⟨by decide, by decide, by decide⟩

/-- Witness for the amended C6 at the two-iterator example context. -/
theorem claim_C6_witness :
    exCtx.iters ≠ [] ∧
    (measure exCtx exEnv [] (fun _ => .ok exObs)).final.map SweepSt.current_point =
      some 6 ∧
    ((measure exCtx exEnv [] (fun _ => .ok exObs)).number_points =
      (exCtx.iters.map (fun p => p.2.length)).prod ∧
    (∀ st1 : SweepSt, (measure exCtx exEnv [] (fun _ => .ok exObs)).final = some st1 →
      st1.current_point = st1.trace.countP (fun e => e.2) ∧
      st1.current_point ≤ (measure exCtx exEnv [] (fun _ => .ok exObs)).number_points) ∧
    (∀ (index : ℕ) (values : List ℚ) (st : SweepSt),
      st.current_point ≤ (iterate_level exCtx index values st).current_point)) :=
  ⟨by decide, by decide, claim_C6 exCtx exEnv [] (fun _ => .ok exObs) (by decide)⟩

/-!  The per-point fault path: `run_measurement` raising at point `k`. -/

theorem getD_set_eq (l : List ℚ) : ∀ (i m : ℕ) (x : ℚ),
    (l.set i x).getD m 0 = if i = m ∧ i < l.length then x else l.getD m 0 := by
  induction l with
  | nil => intro i m x; simp [List.getD]
  | cons a l ih =>
      intro i m x
      cases i with
      | zero =>
          cases m with
          | zero => simp [List.getD]
          | succ m => simp [List.getD]
      | succ i =>
          cases m with
          | zero => simp [List.getD]
          | succ m =>
              simp only [List.set_cons_succ, List.getD_cons_succ, ih i m x,
                List.length_cons]
              by_cases hb : i = m ∧ i < l.length
              · rw [if_pos hb, if_pos (by omega)]
              · rw [if_neg hb, if_neg (by omega)]

/-- Behaviour of one (partial) sweep when the run callback succeeds strictly
below point `k` and raises at point `k`, relative to a sub-sweep that would
issue `sz` points: timestamps are preserved in length and written exactly on
the completed range; if point `k` falls inside the sub-sweep the flag is up,
`current_point` stopped at `k` and exactly `k - start + 1` calls were added
(the last one failing); otherwise the sub-sweep completed cleanly. -/
def FailSpec (C : Ctx) (k sz : ℕ) (st r : SweepSt) : Prop :=
  r.timestamps.length = st.timestamps.length ∧
  (∀ m, r.timestamps.getD m 0 =
    if st.current_point ≤ m ∧ m < r.current_point ∧ m < st.timestamps.length
    then C.clock m else st.timestamps.getD m 0) ∧
  (if k < st.current_point + sz then
    r.flag_stop = true ∧ r.current_point = k ∧
      r.trace.length = st.trace.length + (k - st.current_point) + 1
  else
    r.flag_stop = false ∧ r.current_point = st.current_point + sz ∧
      r.trace.length = st.trace.length + sz)

theorem failSpec_nil (C : Ctx) (k : ℕ) (st : SweepSt)
    (hflag : st.flag_stop = false) (hcp : st.current_point ≤ k) :
    FailSpec C k 0 st st := by
  refine ⟨rfl, ?_, ?_⟩
  · intro m
    rw [if_neg (by omega)]
  · rw [if_neg (by omega)]
    exact ⟨hflag, by omega, by omega⟩

theorem failSpec_cp_le (C : Ctx) (k sz : ℕ) (st r : SweepSt)
    (h : FailSpec C k sz st r) (hflag : r.flag_stop = false) :
    r.current_point ≤ k := by
  obtain ⟨-, -, hcase⟩ := h
  by_cases hc : k < st.current_point + sz
  · rw [if_pos hc] at hcase
    rw [hcase.1] at hflag
    cases hflag
  · rw [if_neg hc] at hcase
    omega

theorem failSpec_glue (C : Ctx) (k s1 s2 : ℕ) (st r1 r2 : SweepSt)
    (hcp : st.current_point ≤ k)
    (h1 : FailSpec C k s1 st r1)
    (h2 : r1.flag_stop = false → FailSpec C k s2 r1 r2)
    (h2flag : r1.flag_stop = true → r2 = r1) :
    FailSpec C k (s1 + s2) st r2 := by
  obtain ⟨hlen1, hts1, hcase1⟩ := h1
  by_cases hc1 : k < st.current_point + s1
  · rw [if_pos hc1] at hcase1
    obtain ⟨hf1, hcp1, htr1⟩ := hcase1
    have hr2 : r2 = r1 := h2flag hf1
    subst hr2
    refine ⟨hlen1, hts1, ?_⟩
    rw [if_pos (by omega)]
    exact ⟨hf1, hcp1, by omega⟩
  · rw [if_neg hc1] at hcase1
    obtain ⟨hf1, hcp1, htr1⟩ := hcase1
    obtain ⟨hlen2, hts2, hcase2⟩ := h2 hf1
    have hr2cp : r1.current_point ≤ r2.current_point := by
      by_cases hc2 : k < r1.current_point + s2
      · rw [if_pos hc2] at hcase2
        omega
      · rw [if_neg hc2] at hcase2
        omega
    refine ⟨hlen2.trans hlen1, ?_, ?_⟩
    · intro m
      rw [hts2 m, hts1 m]
      split_ifs <;> first | rfl | omega
    · by_cases hc2 : k < r1.current_point + s2
      · rw [if_pos hc2] at hcase2
        rw [if_pos (by omega)]
        exact ⟨hcase2.1, hcase2.2.1, by omega⟩
      · rw [if_neg hc2] at hcase2
        rw [if_neg (by omega)]
        exact ⟨hcase2.1, by omega, by omega⟩

/-- Failure accounting at the base recursion level. -/
theorem iterate_point_fail (C : Ctx) (name : String) (k : ℕ)
    (f : ℕ → AList ℚ → Obs → Obs)
    (hok : ∀ j d o, j < k → C.run j d o = .ok (f j d o))
    (herr : ∀ d o, C.run k d o = .error ())
    (hstop : ∀ j, C.stopReq j = false) (values : List ℚ) :
    ∀ st : SweepSt, st.flag_stop = false → st.current_point ≤ k →
      FailSpec C k values.length st (iterate_point C name values st) := by
  induction values with
  | nil =>
      intro st hflag hcp
      rw [iterate_point]
      exact failSpec_nil C k st hflag hcp
  | cons v vs ih =>
      intro st hflag hcp
      by_cases hck : st.current_point = k
      · rw [iterate_point_cons_err C name v vs st () hflag (by rw [hck]; exact herr _ _)]
        refine ⟨rfl, ?_, ?_⟩
        · intro m
          rw [if_neg (show ¬(st.current_point ≤ m ∧ m < st.current_point ∧
            m < st.timestamps.length) by omega)]
        · rw [if_pos (by simp; omega)]
          refine ⟨rfl, hck, ?_⟩
          rw [List.length_append]
          simp
          omega
      · have hlt : st.current_point < k := Nat.lt_of_le_of_ne hcp hck
        rw [iterate_point_cons_ok C name v vs st _ hflag (hok _ _ _ hlt)]
        set st2 : SweepSt :=
          ⟨setKey st.var_dict name v, f st.current_point (setKey st.var_dict name v)
              st.observables, st.current_point + 1, C.stopReq st.current_point,
            st.timestamps.set st.current_point (C.clock st.current_point),
            st.trace ++ [(setKey st.var_dict name v, true)]⟩ with hst2
        have hst2flag : st2.flag_stop = false := hstop st.current_point
        have hst2cp : st2.current_point ≤ k := hlt
        have hcpeq : st2.current_point = st.current_point + 1 := rfl
        have h1 : FailSpec C k 1 st st2 := by
          refine ⟨by simp [hst2], ?_, ?_⟩
          · intro m
            show (st.timestamps.set st.current_point (C.clock st.current_point)).getD m 0 = _
            rw [getD_set_eq]
            by_cases hm : st.current_point = m
            · subst hm
              split_ifs <;> first | rfl | omega
            · split_ifs <;> first | rfl | (exfalso; omega)
          · rw [if_neg (by omega)]
            refine ⟨hst2flag, by simp [hst2], by simp [hst2]⟩
        have hglue := failSpec_glue C k 1 vs.length st st2 _ hcp h1
          (fun hf => ih st2 hf hst2cp)
          (fun hf => iterate_point_flag C name vs st2 hf)
        rwa [Nat.add_comm, show vs.length + 1 = (v :: vs).length from rfl] at hglue

/-- Failure accounting at an upper recursion level, given the accounting of
the level below (one sub-sweep issues `s` points when it completes). -/
theorem iterate_upper_fail (C : Ctx) (sub : SweepSt → SweepSt) (name : String)
    (k s : ℕ)
    (hsub : ∀ st : SweepSt, st.flag_stop = false → st.current_point ≤ k →
      FailSpec C k s st (sub st)) (values : List ℚ) :
    ∀ st : SweepSt, st.flag_stop = false → st.current_point ≤ k →
      FailSpec C k (values.length * s) st (iterate_upper sub name values st) := by
  induction values with
  | nil =>
      intro st hflag hcp
      rw [iterate_upper]
      simpa using failSpec_nil C k st hflag hcp
  | cons v vs ih =>
      intro st hflag hcp
      rw [iterate_upper_cons sub name v vs st hflag]
      set st1 : SweepSt := { st with var_dict := setKey st.var_dict name v } with hst1
      have h1 : FailSpec C k s st (sub st1) := hsub st1 hflag hcp
      have hglue := failSpec_glue C k s (vs.length * s) st (sub st1) _ hcp h1
        (fun hf => ih (sub st1) hf (failSpec_cp_le C k s st (sub st1) h1 hf))
        (fun hf => iterate_upper_flag sub name vs (sub st1) hf)
      rwa [show s + vs.length * s = (v :: vs).length * s by simp; ring] at hglue

/-- Failure accounting for every recursion level of the sweep. -/
theorem iterate_level_fail (C : Ctx) (k : ℕ)
    (f : ℕ → AList ℚ → Obs → Obs)
    (hok : ∀ j d o, j < k → C.run j d o = .ok (f j d o))
    (herr : ∀ d o, C.run k d o = .error ())
    (hstop : ∀ j, C.stopReq j = false) (index : ℕ) (values : List ℚ) :
    ∀ st : SweepSt, st.flag_stop = false → st.current_point ≤ k →
      FailSpec C k (values.length * subSize C.iters index) st
        (iterate_level C index values st) := by
  induction index generalizing values with
  | zero =>
      intro st hflag hcp
      have h := iterate_point_fail C (iterName C.iters 0) k f hok herr hstop values st
        hflag hcp
      rwa [show values.length = values.length * subSize C.iters 0 by simp [subSize]] at h
  | succ i ih =>
      intro st hflag hcp
      have h := iterate_upper_fail C
        (fun s => iterate_level C i (iterValues C.iters i) s)
        (iterName C.iters (i + 1)) k (subSize C.iters (i + 1))
        (fun st2 hf hc => by
          have h2 := ih (iterValues C.iters i) st2 hf hc
          rwa [show (iterValues C.iters i).length * subSize C.iters i =
              subSize C.iters (i + 1) by rw [subSize, Nat.mul_comm]] at h2)
        values st hflag hcp
      exact h

/-- C3: when `run_measurement` raises at point `k` of the sweep, the
exception is caught inside `iterate_measurement` (the model returns normally
with the caught error folded into the state), `flag_stop` is set, the sweep
issued exactly the `k` successful calls plus the one failing call and
nothing after it, `current_point` stays at `k` and the timestamp of the
failed point is never written; `measure` then still calls `save_data`, which
persists the data collected so far together with the `Abort Flag` entry in
the Meta Info group. -/
theorem claim_C3 (C : Ctx) (env : Env) (params : AList ℚ)
    (setup : AList ℚ → Except Unit Obs) (obs0 : Obs) (k : ℕ)
    (f : ℕ → AList ℚ → Obs → Obs)
    (hne : C.iters ≠ []) (hsetup : setup params = .ok obs0)
    (hok : ∀ j d o, j < k → C.run j d o = .ok (f j d o))
    (herr : ∀ d o, C.run k d o = .error ())
    (hstop : ∀ j, C.stopReq j = false)
    (hk : k < number_points_of C.iters) :
    ∃ st1 : SweepSt, (measure C env params setup).final = some st1 ∧
      st1.flag_stop = true ∧
      st1.current_point = k ∧
      st1.trace.length = k + 1 ∧
      (∀ m, st1.timestamps.getD m 0 = if m < k then C.clock m else 0) ∧
      ∃ fl : H5File, (measure C env params setup).file = some fl ∧
        ("Abort Flag", DVal.strs ["This Measurement was aborted."]) ∈ fl.metaInfo ∧
        fl.obsGroups = (st1.observables.filter (fun p => p.2.save)).map mkObsGroup ∧
        ("Timestamps", DVal.floats st1.timestamps) ∈ fl.iterGroup := by
  rw [measure, if_neg hne, hsetup]
  set st0 : SweepSt :=
    ⟨params, obs0, 0, false, List.replicate (number_points_of C.iters) 0, []⟩ with hst0
  set st1 := iterate_measurement C (C.iters.length - 1) st0 with hst1
  have hspec : FailSpec C k
      ((iterValues C.iters (C.iters.length - 1)).length *
        subSize C.iters (C.iters.length - 1)) st0 st1 :=
    iterate_level_fail C k f hok herr hstop (C.iters.length - 1)
      (iterValues C.iters (C.iters.length - 1)) st0 rfl (Nat.zero_le k)
  rw [show (iterValues C.iters (C.iters.length - 1)).length *
      subSize C.iters (C.iters.length - 1) = number_points_of C.iters by
    rw [Nat.mul_comm]; exact subSize_last C.iters hne] at hspec
  obtain ⟨hlen, hts, hcase⟩ := hspec
  rw [if_pos (by dsimp only [hst0]; omega)] at hcase
  obtain ⟨hflag1, hcp1, htr1⟩ := hcase
  refine ⟨st1, rfl, hflag1, hcp1, by simpa using htr1, ?_, ?_⟩
  · intro m
    rw [hts m]
    have hrep : ∀ mm : ℕ, (List.replicate (number_points_of C.iters) (0:ℚ)).getD mm 0 = 0 := by
      intro mm
      rw [List.getD_eq_getElem?_getD]
      by_cases hmm : mm < number_points_of C.iters
      · rw [List.getElem?_replicate, if_pos hmm]
        rfl
      · rw [List.getElem?_replicate, if_neg hmm]
        rfl
    show (if 0 ≤ m ∧ m < st1.current_point ∧
        m < (List.replicate (number_points_of C.iters) (0:ℚ)).length then C.clock m
      else (List.replicate (number_points_of C.iters) (0:ℚ)).getD m 0) = _
    rw [hrep m]
    rw [hcp1]
    simp only [List.length_replicate]
    split_ifs <;> first | rfl | omega
  · refine ⟨_, rfl, ?_, ?_, ?_⟩
    · rw [save_data, hflag1]
      simp [emptyFile]
    · rw [save_data]
      simp [emptyFile]
    · rw [save_data]
      simp [emptyFile]

/-- Context for the C3 witness: `run_measurement` raises at point 3 of the
2×3 sweep and succeeds before it. -/
def exCtxFail : Ctx :=
  ⟨fun n => (n : ℚ) + 100, fun j _ o => if j = 3 then .error () else .ok o,
    fun _ => false, exIters⟩

/-- Witness for C3: failing at point 3 of the six-point example sweep. -/
theorem claim_C3_witness :
    ∃ st1 : SweepSt,
      (measure exCtxFail exEnv [] (fun _ => .ok exObs)).final = some st1 ∧
      st1.flag_stop = true ∧
      st1.current_point = 3 ∧
      st1.trace.length = 3 + 1 ∧
      (∀ m, st1.timestamps.getD m 0 = if m < 3 then exCtxFail.clock m else 0) ∧
      ∃ fl : H5File, (measure exCtxFail exEnv [] (fun _ => .ok exObs)).file = some fl ∧
        ("Abort Flag", DVal.strs ["This Measurement was aborted."]) ∈ fl.metaInfo ∧
        fl.obsGroups = (st1.observables.filter (fun p => p.2.save)).map mkObsGroup ∧
        ("Timestamps", DVal.floats st1.timestamps) ∈ fl.iterGroup :=
  claim_C3 exCtxFail exEnv [] (fun _ => .ok exObs) exObs 3 (fun _ _ o => o)
    (by decide) rfl
    (fun j d o h => by
      show (if j = 3 then Except.error () else Except.ok o) = Except.ok o
      rw [if_neg (by omega)])
    (fun d o => by
      show (if 3 = 3 then Except.error () else Except.ok o) = Except.error ()
      rw [if_pos rfl])
    (fun j => rfl)
    (by decide)

/-!  Sweep ordering: the odometer enumeration of the iterator space. -/

/-- Mixed-radix odometer enumeration of a list of value lists: the FIRST
list is the fastest-varying digit. -/
def odometer : List (List ℚ) → List (List ℚ)
  | [] => [[]]
  | vs :: rest => (odometer rest).flatMap (fun tl => vs.map (fun v => v :: tl))

/-- The tuple of current iterator values read off a variable dict. -/
def tupleOf (iters : List (String × List ℚ)) (d : AList ℚ) : List ℚ :=
  iters.map (fun it => getKeyD d it.1 0)

theorem length_flatMap_const {α β : Type} (l : List α) (n : ℕ) (f : α → List β)
    (h : ∀ a ∈ l, (f a).length = n) : (l.flatMap f).length = l.length * n := by
  induction l with
  | nil => simp
  | cons a l ih =>
      rw [List.flatMap_cons, List.length_append, h a (by simp),
        ih (fun b hb => h b (by simp [hb]))]
      simp [Nat.succ_mul]
      omega

theorem odometer_length (ls : List (List ℚ)) :
    (odometer ls).length = (ls.map List.length).prod := by
  induction ls with
  | nil => rfl
  | cons vs rest ih =>
      rw [odometer, length_flatMap_const _ vs.length _ (fun a _ => by simp), ih]
      simp [Nat.mul_comm]

theorem flatMap_singleton_map {α β : Type} (l : List α) (g : α → β) :
    l.flatMap (fun v => [g v]) = l.map g := by
  induction l with
  | nil => rfl
  | cons a l ih => simp [List.flatMap_cons, ih]

theorem odometer_snoc (ls : List (List ℚ)) (l : List ℚ) :
    odometer (ls ++ [l]) = l.flatMap (fun v => (odometer ls).map (fun t => t ++ [v])) := by
  induction ls with
  | nil => simp [odometer, flatMap_singleton_map]
  | cons x xs ih =>
      rw [List.cons_append, odometer, ih, odometer]
      simp [List.flatMap_assoc, List.flatMap_map, List.map_flatMap, List.map_map,
        Function.comp_def, List.cons_append]

theorem getKeyD_foldl_setKey (name : String) (values : List ℚ) :
    ∀ (d : AList ℚ) (k : String) (v₀ : ℚ), k ≠ name →
      getKeyD (values.foldl (fun d v => setKey d name v) d) k v₀ = getKeyD d k v₀ := by
  induction values with
  | nil => intro d k v₀ _; rfl
  | cons v vs ih =>
      intro d k v₀ hk
      rw [List.foldl_cons, ih _ _ _ hk, getKeyD_setKey_ne _ _ _ _ _ (Ne.symm hk)]

/-- Behaviour of the base level when every `run_measurement` call succeeds
and no stop is requested: the flag stays down, the variable dict receives the
successive values of iterator 0, and one successful trace entry per value is
appended, whose dict is the incoming dict with iterator 0 set to that value. -/
theorem iterate_point_trace (C : Ctx) (f : ℕ → AList ℚ → Obs → Obs)
    (hok : ∀ j d o, C.run j d o = .ok (f j d o)) (hstop : ∀ j, C.stopReq j = false)
    (name : String) (values : List ℚ) :
    ∀ st : SweepSt, st.flag_stop = false →
      (iterate_point C name values st).flag_stop = false ∧
      (iterate_point C name values st).var_dict =
        values.foldl (fun d v => setKey d name v) st.var_dict ∧
      (iterate_point C name values st).trace =
        st.trace ++ values.map (fun v => (setKey st.var_dict name v, true)) := by
  induction values with
  | nil =>
      intro st hflag
      rw [iterate_point]
      exact ⟨hflag, rfl, by simp⟩
  | cons v vs ih =>
      intro st hflag
      rw [iterate_point_cons_ok C name v vs st _ hflag (hok _ _ _)]
      set st2 : SweepSt :=
        ⟨setKey st.var_dict name v,
          f st.current_point (setKey st.var_dict name v) st.observables,
          st.current_point + 1, C.stopReq st.current_point,
          st.timestamps.set st.current_point (C.clock st.current_point),
          st.trace ++ [(setKey st.var_dict name v, true)]⟩ with hst2
      obtain ⟨h1, h2, h3⟩ := ih st2 (hstop st.current_point)
      refine ⟨h1, ?_, ?_⟩
      · rw [h2]
        show vs.foldl (fun d v => setKey d name v) (setKey st.var_dict name v) = _
        rw [List.foldl_cons]
      · rw [h3]
        show (st.trace ++ [(setKey st.var_dict name v, true)]) ++
          vs.map (fun w => (setKey (setKey st.var_dict name v) name w, true)) = _
        rw [List.append_assoc, List.singleton_append, List.map_cons]
        have : vs.map (fun w => (setKey (setKey st.var_dict name v) name w, true)) =
            vs.map (fun w => (setKey st.var_dict name w, true)) :=
          List.map_congr_left (fun w _ => by rw [setKey_setKey_same])
        rw [this]

/-- Full-sweep behaviour of recursion level `i` when every call succeeds and
no stop is requested: flag stays down, variable-dict keys other than the
names of iterators `0..i` are untouched, and the appended trace entries are
exactly one successful call per tuple of the odometer enumeration of the
value lists of iterators `0..i` (iterator 0 fastest), each entry's dict
showing that tuple together with the incoming values of iterators above `i`. -/
def LevelSpec (C : Ctx) (i : ℕ) (st r : SweepSt) : Prop :=
  r.flag_stop = false ∧
  (∀ (kk : String) (v₀ : ℚ), kk ∉ (C.iters.map Prod.fst).take (i + 1) →
    getKeyD r.var_dict kk v₀ = getKeyD st.var_dict kk v₀) ∧
  ∃ L, r.trace = st.trace ++ L ∧
    (∀ e ∈ L, e.2 = true) ∧
    L.map (fun e => tupleOf C.iters e.1) =
      (odometer ((C.iters.take (i + 1)).map Prod.snd)).map
        (fun t => t ++ (C.iters.drop (i + 1)).map (fun it => getKeyD st.var_dict it.1 0))

theorem iterName_eq (iters : List (String × List ℚ)) (j : ℕ) (hj : j < iters.length) :
    iterName iters j = iters[j].1 := by
  rw [iterName, List.getD_eq_getElem?_getD, List.getElem?_eq_getElem hj]
  rfl

theorem iterValues_eq (iters : List (String × List ℚ)) (j : ℕ) (hj : j < iters.length) :
    iterValues iters j = iters[j].2 := by
  rw [iterValues, List.getD_eq_getElem?_getD, List.getElem?_eq_getElem hj]
  rfl

theorem getElem_not_mem_drop {α : Type} (l : List α) (hnd : l.Nodup) (j : ℕ)
    (hj : j < l.length) : l[j] ∉ l.drop (j + 1) := by
  have hsplit : l.take (j + 1) ++ l.drop (j + 1) = l := List.take_append_drop _ _
  rw [← hsplit] at hnd
  have hdisj := List.disjoint_of_nodup_append hnd
  have hlt : j < (l.take (j + 1)).length := by
    rw [List.length_take]
    omega
  have hmem : l[j] ∈ l.take (j + 1) := by
    have hgt : (l.take (j + 1))[j] = l[j] := List.getElem_take l
    rw [← hgt]
    exact List.getElem_mem hlt
  exact fun hcon => hdisj hmem hcon

theorem mem_take_mono {α : Type} (l : List α) (m n : ℕ) (h : m ≤ n) (x : α)
    (hx : x ∈ l.take m) : x ∈ l.take n := by
  have heq : l.take m = (l.take n).take m := by
    rw [List.take_take, Nat.min_eq_left h]
  rw [heq] at hx
  exact List.mem_of_mem_take hx

theorem getElem_mem_take {α : Type} (l : List α) (j : ℕ) (hj : j < l.length) :
    l[j] ∈ l.take (j + 1) := by
  have hlt : j < (l.take (j + 1)).length := by
    rw [List.length_take]
    omega
  have hgt : (l.take (j + 1))[j] = l[j] := List.getElem_take l
  rw [← hgt]
  exact List.getElem_mem hlt

theorem odometer_single (x : List ℚ) : odometer [x] = x.map (fun v => [v]) := by
  simp [odometer, flatMap_singleton_map]

/-- The full-values level-0 sweep satisfies its `LevelSpec`. -/
theorem level_zero_spec (C : Ctx) (f : ℕ → AList ℚ → Obs → Obs)
    (hok : ∀ j d o, C.run j d o = .ok (f j d o)) (hstop : ∀ j, C.stopReq j = false)
    (hnd : (C.iters.map Prod.fst).Nodup) (hi : 0 < C.iters.length) :
    ∀ st : SweepSt, st.flag_stop = false →
      LevelSpec C 0 st (iterate_level C 0 (iterValues C.iters 0) st) := by
  intro st hflag
  have hi' : 0 < (C.iters.map Prod.fst).length := by simpa using hi
  obtain ⟨h1, h2, h3⟩ := iterate_point_trace C f hok hstop (iterName C.iters 0)
    (iterValues C.iters 0) st hflag
  have hname0 : iterName C.iters 0 = (C.iters.map Prod.fst)[0] := by
    rw [iterName_eq C.iters 0 hi]
    exact (List.getElem_map Prod.fst).symm
  have htake1 : (C.iters.map Prod.fst).take 1 = [(C.iters.map Prod.fst)[0]] := by
    rw [List.take_succ, List.take_zero, List.getElem?_eq_getElem hi']
    rfl
  refine ⟨h1, ?_, ?_⟩
  · intro kk v₀ hkk
    show getKeyD (iterate_level C 0 (iterValues C.iters 0) st).var_dict kk v₀ = _
    rw [show iterate_level C 0 (iterValues C.iters 0) st =
        iterate_point C (iterName C.iters 0) (iterValues C.iters 0) st from rfl, h2]
    refine getKeyD_foldl_setKey _ _ _ _ _ ?_
    rw [htake1] at hkk
    simp only [List.mem_singleton] at hkk
    rw [hname0]
    exact hkk
  · refine ⟨(iterValues C.iters 0).map
      (fun v => (setKey st.var_dict (iterName C.iters 0) v, true)), h3, ?_, ?_⟩
    · intro e he
      obtain ⟨v, -, rfl⟩ := List.mem_map.mp he
      rfl
    · rw [List.map_map]
      have htakev : (C.iters.take 1).map Prod.snd = [C.iters[0].2] := by
        rw [List.take_succ, List.take_zero, List.getElem?_eq_getElem hi]
        rfl
      rw [htakev, odometer_single, List.map_map]
      rw [iterValues_eq C.iters 0 hi]
      refine List.map_congr_left ?_
      intro v hv
      show tupleOf C.iters (setKey st.var_dict (iterName C.iters 0) v) =
        [v] ++ (C.iters.drop 1).map (fun it => getKeyD st.var_dict it.1 0)
      have hsplit : C.iters = C.iters[0] :: C.iters.drop 1 := by
        conv_lhs => rw [← List.drop_zero C.iters]
        exact List.drop_eq_getElem_cons hi
      rw [tupleOf]
      set dset := setKey st.var_dict (iterName C.iters 0) v with hdset
      conv_lhs => rw [hsplit]
      rw [List.map_cons, List.singleton_append]
      congr 1
      · rw [hdset, iterName_eq C.iters 0 hi]
        exact getKeyD_setKey_same _ _ _ _
      · refine List.map_congr_left ?_
        intro it hit
        rw [hdset]
        refine getKeyD_setKey_ne _ _ _ _ _ ?_
        rw [hname0]
        intro hcon
        refine getElem_not_mem_drop (C.iters.map Prod.fst) hnd 0 hi' ?_
        rw [hcon]
        rw [← List.map_drop]
        exact List.mem_map_of_mem Prod.fst hit

/-- Partial sweep of the remaining `values` at level `i + 1`, assuming the
`LevelSpec` of the full level-`i` sweep below: entries appear value-major,
with one full level-`≤ i` odometer block per remaining value. -/
theorem upper_partial_spec (C : Ctx) (f : ℕ → AList ℚ → Obs → Obs)
    (i : ℕ) (hi : i + 1 < C.iters.length)
    (hnd : (C.iters.map Prod.fst).Nodup)
    (hsub : ∀ st : SweepSt, st.flag_stop = false →
      LevelSpec C i st (iterate_level C i (iterValues C.iters i) st))
    (values : List ℚ) :
    ∀ st : SweepSt, st.flag_stop = false →
      (iterate_level C (i + 1) values st).flag_stop = false ∧
      (∀ (kk : String) (v₀ : ℚ), kk ∉ (C.iters.map Prod.fst).take (i + 2) →
        getKeyD (iterate_level C (i + 1) values st).var_dict kk v₀ =
          getKeyD st.var_dict kk v₀) ∧
      ∃ L, (iterate_level C (i + 1) values st).trace = st.trace ++ L ∧
        (∀ e ∈ L, e.2 = true) ∧
        L.map (fun e => tupleOf C.iters e.1) =
          values.flatMap (fun v =>
            (odometer ((C.iters.take (i + 1)).map Prod.snd)).map
              (fun t => t ++ v :: (C.iters.drop (i + 2)).map
                (fun it => getKeyD st.var_dict it.1 0))) := by
  have hi' : i + 1 < (C.iters.map Prod.fst).length := by simpa using hi
  have hname : iterName C.iters (i + 1) = (C.iters.map Prod.fst)[i + 1] := by
    rw [iterName_eq C.iters (i + 1) hi]
    exact (List.getElem_map Prod.fst).symm
  have hfactA : ∀ it ∈ C.iters.drop (i + 2), it.1 ≠ iterName C.iters (i + 1) := by
    intro it hit hcon
    refine getElem_not_mem_drop (C.iters.map Prod.fst) hnd (i + 1) hi' ?_
    rw [← hname, ← hcon, ← List.map_drop]
    exact List.mem_map_of_mem Prod.fst hit
  have hfactB : ∀ it ∈ C.iters.drop (i + 2),
      it.1 ∉ (C.iters.map Prod.fst).take (i + 1) := by
    intro it hit hcon
    have hsplit : (C.iters.map Prod.fst).take (i + 2) ++
        (C.iters.map Prod.fst).drop (i + 2) = C.iters.map Prod.fst :=
      List.take_append_drop _ _
    have hnd2 := hnd
    rw [← hsplit] at hnd2
    refine List.disjoint_of_nodup_append hnd2
      (mem_take_mono _ (i + 1) (i + 2) (by omega) _ hcon) ?_
    rw [← List.map_drop]
    exact List.mem_map_of_mem Prod.fst hit
  have hfactC : iterName C.iters (i + 1) ∈ (C.iters.map Prod.fst).take (i + 2) := by
    rw [hname]
    exact getElem_mem_take _ (i + 1) hi'
  induction values with
  | nil =>
      intro st hflag
      refine ⟨hflag, fun kk v₀ _ => rfl, [], by simp [iterate_level, iterate_upper], ?_, ?_⟩
      · intro e he
        cases he
      · simp
  | cons v vs ih =>
      intro st hflag
      have hstep : iterate_level C (i + 1) (v :: vs) st =
          iterate_level C (i + 1) vs
            (iterate_level C i (iterValues C.iters i)
              { st with var_dict := setKey st.var_dict (iterName C.iters (i + 1)) v }) := by
        show iterate_upper _ _ (v :: vs) st = _
        rw [iterate_upper_cons _ _ v vs st hflag]
        rfl
      set st1 : SweepSt :=
        { st with var_dict := setKey st.var_dict (iterName C.iters (i + 1)) v } with hst1
      set r1 := iterate_level C i (iterValues C.iters i) st1 with hr1
      obtain ⟨hf1, hb1, L1, htr1, hT1, hP1⟩ := hsub st1 hflag
      obtain ⟨hf2, hb2, L2, htr2, hT2, hP2⟩ := ih r1 hf1
      have hTD : (C.iters.drop (i + 1)).map (fun it => getKeyD st1.var_dict it.1 0) =
          v :: (C.iters.drop (i + 2)).map (fun it => getKeyD st.var_dict it.1 0) := by
        rw [List.drop_eq_getElem_cons hi, List.map_cons]
        congr 1
        · show getKeyD (setKey st.var_dict (iterName C.iters (i + 1)) v) C.iters[i + 1].1 0 = v
          rw [← iterName_eq C.iters (i + 1) hi]
          exact getKeyD_setKey_same _ _ _ _
        · refine List.map_congr_left ?_
          intro it hit
          show getKeyD (setKey st.var_dict (iterName C.iters (i + 1)) v) it.1 0 = _
          exact getKeyD_setKey_ne _ _ _ _ _ (Ne.symm (hfactA it hit))
      have hTD2 : (C.iters.drop (i + 2)).map (fun it => getKeyD r1.var_dict it.1 0) =
          (C.iters.drop (i + 2)).map (fun it => getKeyD st.var_dict it.1 0) := by
        refine List.map_congr_left ?_
        intro it hit
        rw [hb1 it.1 0 (hfactB it hit)]
        show getKeyD (setKey st.var_dict (iterName C.iters (i + 1)) v) it.1 0 = _
        exact getKeyD_setKey_ne _ _ _ _ _ (Ne.symm (hfactA it hit))
      rw [hstep]
      refine ⟨hf2, ?_, L1 ++ L2, ?_, ?_, ?_⟩
      · intro kk v₀ hkk
        rw [hb2 kk v₀ hkk, hb1 kk v₀
          (fun hmem => hkk (mem_take_mono _ (i + 1) (i + 2) (by omega) _ hmem))]
        show getKeyD (setKey st.var_dict (iterName C.iters (i + 1)) v) kk v₀ = _
        refine getKeyD_setKey_ne _ _ _ _ _ ?_
        intro hcon
        exact hkk (hcon ▸ hfactC)
      · rw [htr2, htr1, List.append_assoc]
      · intro e he
        rcases List.mem_append.mp he with h | h
        · exact hT1 e h
        · exact hT2 e h
      · rw [List.map_append, hP1, hP2, hTD, hTD2, List.flatMap_cons]

/-- Every recursion level of an all-success, no-stop sweep satisfies its
`LevelSpec`. -/
theorem level_spec (C : Ctx) (f : ℕ → AList ℚ → Obs → Obs)
    (hok : ∀ j d o, C.run j d o = .ok (f j d o)) (hstop : ∀ j, C.stopReq j = false)
    (hnd : (C.iters.map Prod.fst).Nodup) :
    ∀ i, i < C.iters.length → ∀ st : SweepSt, st.flag_stop = false →
      LevelSpec C i st (iterate_level C i (iterValues C.iters i) st) := by
  intro i
  induction i with
  | zero => exact fun hi st hf => level_zero_spec C f hok hstop hnd hi st hf
  | succ i ih =>
      intro hi st hf
      obtain ⟨hf2, hb2, L, htr, hT, hP⟩ :=
        upper_partial_spec C f i hi hnd
          (fun st2 hf2 => ih (by omega) st2 hf2) (iterValues C.iters (i + 1)) st hf
      refine ⟨hf2, hb2, L, htr, hT, ?_⟩
      rw [hP]
      have htk : (C.iters.take (i + 2)).map Prod.snd =
          ((C.iters.take (i + 1)).map Prod.snd) ++ [C.iters[i + 1].2] := by
        rw [List.take_succ, List.getElem?_eq_getElem hi, List.map_append]
        rfl
      rw [htk, odometer_snoc, List.map_flatMap, iterValues_eq C.iters (i + 1) hi]
      congr 1
      funext v
      rw [List.map_map]
      refine List.map_congr_left ?_
      intro t _
      simp [Function.comp_def, List.append_assoc]

/-- C1: with a `run_measurement` that always succeeds (returning updated
observables) and no stop request, `iterate_measurement` invoked with
`index = len(iterators) - 1` calls `run_measurement` exactly once per element
of the Cartesian product of the iterator value lists, and the tuples of
iterator values it passes (read off the variable dict at each call) are
exactly the mixed-radix odometer enumeration of the value lists with
iterator index 0 varying fastest. -/
theorem claim_C1 (C : Ctx) (f : ℕ → AList ℚ → Obs → Obs)
    (hok : ∀ j d o, C.run j d o = .ok (f j d o)) (hstop : ∀ j, C.stopReq j = false)
    (hnd : (C.iters.map Prod.fst).Nodup) (hne : C.iters ≠ [])
    (st : SweepSt) (hflag : st.flag_stop = false) (htrace : st.trace = []) :
    (iterate_measurement C (C.iters.length - 1) st).trace.map
        (fun e => tupleOf C.iters e.1) =
      odometer (C.iters.map Prod.snd) ∧
    (∀ e ∈ (iterate_measurement C (C.iters.length - 1) st).trace, e.2 = true) ∧
    (iterate_measurement C (C.iters.length - 1) st).trace.length =
      (C.iters.map (fun p => p.2.length)).prod := by
  have hlen : C.iters.length - 1 + 1 = C.iters.length :=
    Nat.succ_pred_eq_of_pos (List.length_pos.mpr hne)
  have hi : C.iters.length - 1 < C.iters.length := by omega
  obtain ⟨-, -, L, htr, hT, hP⟩ := level_spec C f hok hstop hnd (C.iters.length - 1) hi st hflag
  have htr' : (iterate_measurement C (C.iters.length - 1) st).trace = L := by
    rw [iterate_measurement, htr, htrace, List.nil_append]
  have hfull : (C.iters.take (C.iters.length - 1 + 1)).map Prod.snd =
      C.iters.map Prod.snd := by
    rw [hlen, List.take_length]
  have hdropnil : C.iters.drop (C.iters.length - 1 + 1) = [] := by
    rw [hlen]
    exact List.drop_length _
  rw [hfull, hdropnil] at hP
  simp only [List.map_nil, List.append_nil] at hP
  have hP' : L.map (fun e => tupleOf C.iters e.1) = odometer (C.iters.map Prod.snd) := by
    rw [hP]
    exact List.map_id _
  refine ⟨by rw [htr', hP'], fun e he => hT e (by rwa [htr'] at he), ?_⟩
  rw [htr']
  have hlenL := congrArg List.length hP'
  rw [List.length_map, odometer_length, List.map_map] at hlenL
  rw [hlenL]
  rfl

/-- Witness for C1 at the spec example `[(A,[a0,a1]), (B,[b0,b1,b2])]`: the
six calls happen in the order `(a0,b0),(a1,b0),(a0,b1),(a1,b1),(a0,b2),(a1,b2)`. -/
theorem claim_C1_witness :
    (odometer (exCtx.iters.map Prod.snd) =
      [[10, 20], [11, 20], [10, 21], [11, 21], [10, 22], [11, 22]]) ∧
    ((iterate_measurement exCtx (exCtx.iters.length - 1) exSt0).trace.map
        (fun e => tupleOf exCtx.iters e.1) =
      odometer (exCtx.iters.map Prod.snd) ∧
    (∀ e ∈ (iterate_measurement exCtx (exCtx.iters.length - 1) exSt0).trace, e.2 = true) ∧
    (iterate_measurement exCtx (exCtx.iters.length - 1) exSt0).trace.length =
      (exCtx.iters.map (fun p => p.2.length)).prod) :=
  ⟨by decide,
    claim_C1 exCtx (fun _ _ o => o) (fun _ _ _ => rfl) (fun _ => rfl)
      (by decide) (by decide) exSt0 rfl rfl⟩

/-!  Claim C2: `Number` observable addressing. -/

/-- Sequential `add_data_point` calls for one observable, one per point, with
`current_point` advancing by 1 each time — the call pattern of a sweep whose
`run_measurement` records one value per point. -/
def add_points_in_order (iters : List (String × List ℚ)) (nm : String) :
    List ℚ → ℕ → Obs → Except String Obs
  | [], _, obs => .ok obs
  | v :: vs, cp, obs =>
    match add_data_point iters cp obs nm (.num v) with
    | .error e => .error e
    | .ok obs2 => add_points_in_order iters nm vs (cp + 1) obs2

/-- Evaluation of `add_data_point` on a registered `Number` observable. -/
theorem add_data_point_number_eq (iters : List (String × List ℚ)) (cp : ℕ)
    (obs : Obs) (nm : String) (o : Observable) (v : ℚ)
    (hfind : findKey obs nm = some o) (htype : o.data_type = .Number) :
    add_data_point iters cp obs nm (.num v) =
      .ok (setKey obs nm
        { o with data :=
            (setKey o.data (toString (cp / (iters.headD ("", [])).2.length))
              (.arr ((if hasKey o.data (toString (cp / (iters.headD ("", [])).2.length))
                  then entryArr (getKeyD o.data
                    (toString (cp / (iters.headD ("", [])).2.length)) (.arr []))
                  else List.replicate (iters.headD ("", [])).2.length 0).set
                (cp % (iters.headD ("", [])).2.length) v))) }) := by
  simp only [add_data_point, hfind, htype]

/-- C2: for a registered `Number` observable, `add_data_point` at
`current_point = cp` writes the value into slot `cp % len0` of the array
stored under key `str(cp / len0)` (`len0` the length of iterator 0's value
list), starting from a fresh zero array of length `len0` the first time that
column key is seen, and touches nothing else; consequently, after a full
2×3 sweep recorded in sweep order with values `v0..v5`, column `"0"` holds
`[v0, v1]`, column `"1"` holds `[v2, v3]` (and column `"2"` holds `[v4, v5]`). -/
theorem claim_C2 (iters : List (String × List ℚ)) (cp : ℕ) (obs : Obs)
    (nm : String) (o : Observable) (v : ℚ)
    (hfind : findKey obs nm = some o) (htype : o.data_type = .Number) :
    (∃ obs2 o2, add_data_point iters cp obs nm (.num v) = .ok obs2 ∧
      findKey obs2 nm = some o2 ∧
      o2.data = setKey o.data (toString (cp / (iters.headD ("", [])).2.length))
        (.arr ((if hasKey o.data (toString (cp / (iters.headD ("", [])).2.length))
                then entryArr (getKeyD o.data
                  (toString (cp / (iters.headD ("", [])).2.length)) (.arr []))
                else List.replicate (iters.headD ("", [])).2.length 0).set
          (cp % (iters.headD ("", [])).2.length) v)) ∧
      (∀ nm2, nm ≠ nm2 → findKey obs2 nm2 = findKey obs nm2)) ∧
    (∀ v0 v1 v2 v3 v4 v5 a0 a1 b0 b1 b2 : ℚ,
      add_points_in_order [("A", [a0, a1]), ("B", [b0, b1, b2])] "X"
        [v0, v1, v2, v3, v4, v5] 0 (add_observable [] "X" .Number true true "green") =
      .ok [("X", ⟨.Number, true, true, "green",
        [("0", .arr [v0, v1]), ("1", .arr [v2, v3]), ("2", .arr [v4, v5])]⟩)]) := by
  constructor
  · exact ⟨_, _, add_data_point_number_eq iters cp obs nm o v hfind htype,
      findKey_setKey_same _ _ _, rfl, fun nm2 h2 => findKey_setKey_ne _ _ _ _ h2⟩
  · intro v0 v1 v2 v3 v4 v5 a0 a1 b0 b1 b2
    have h0 : toString (0 : ℕ) = "0" := rfl
    have h1 : toString (1 : ℕ) = "1" := rfl
    have h2 : toString (2 : ℕ) = "2" := rfl
    have e01 : ("0" : String) = "1" ↔ False := by simp
    have e02 : ("0" : String) = "2" ↔ False := by simp
    have e12 : ("1" : String) = "2" ↔ False := by simp
    have e10 : ("1" : String) = "0" ↔ False := by simp
    have e20 : ("2" : String) = "0" ↔ False := by simp
    have e21 : ("2" : String) = "1" ↔ False := by simp
    norm_num [add_points_in_order, add_data_point, add_observable, findKey, setKey,
      hasKey, getKeyD, entryArr, h0, h1, h2, e01, e02, e12, e10, e20, e21]
    exact ⟨rfl, rfl, rfl⟩

/-- Witness for C2 at concrete values. -/
theorem claim_C2_witness :
    (findKey exObs "X" = some ⟨.Number, true, true, "green", []⟩ ∧
      (⟨.Number, true, true, "green", []⟩ : Observable).data_type = .Number) ∧
    ((∃ obs2 o2, add_data_point exIters 5 exObs "X" (.num 7) = .ok obs2 ∧
      findKey obs2 "X" = some o2 ∧
      o2.data = setKey (⟨.Number, true, true, "green", ([] : AList Entry)⟩ :
          Observable).data (toString (5 / (exIters.headD ("", [])).2.length))
        (.arr ((if hasKey (⟨.Number, true, true, "green", ([] : AList Entry)⟩ :
                  Observable).data (toString (5 / (exIters.headD ("", [])).2.length))
                then entryArr (getKeyD (⟨.Number, true, true, "green",
                  ([] : AList Entry)⟩ : Observable).data
                  (toString (5 / (exIters.headD ("", [])).2.length)) (.arr []))
                else List.replicate (exIters.headD ("", [])).2.length 0).set
          (5 % (exIters.headD ("", [])).2.length) 7)) ∧
      (∀ nm2, "X" ≠ nm2 → findKey obs2 nm2 = findKey exObs nm2)) ∧
    (∀ v0 v1 v2 v3 v4 v5 a0 a1 b0 b1 b2 : ℚ,
      add_points_in_order [("A", [a0, a1]), ("B", [b0, b1, b2])] "X"
        [v0, v1, v2, v3, v4, v5] 0 (add_observable [] "X" .Number true true "green") =
      .ok [("X", ⟨.Number, true, true, "green",
        [("0", .arr [v0, v1]), ("1", .arr [v2, v3]), ("2", .arr [v4, v5])]⟩)])) :=
  ⟨⟨rfl, rfl⟩, claim_C2 exIters 5 exObs "X" ⟨.Number, true, true, "green", []⟩ 7 rfl rfl⟩

end Waveguide
